import Mathlib

/-!
Verification of the conversation-orchestration core of the IDUGEL WhatsApp bot
(`src/index.js`): the text-sanitization pipeline (`removeCitations`,
`formatForWhatsApp`), the session registry (`ThreadManager`), the run-polling
loop (`waitForRunCompletion`), the orchestrator (`processMessage`) and the
inbound message queue (`MessageQueue`).

Strings are modelled as Lean `String`/`List Char`; each JavaScript
`String.prototype.replace(regex, repl)` call is embedded as a leftmost scan
(`replaceScan`) driven by a matcher translated from the concrete regex.
Fallible code is embedded with `Except`; the remote OpenAI API is an explicit
environment of `Except`-valued operations.
-/

namespace Idugel

/-! ## Character classes (JS regex `\s`, `\d`, the capital-letter class) -/

/-- JS `\s` (the whitespace characters relevant here, including NBSP). -/
def isSpaceChar (c : Char) : Bool :=
  c = ' ' || c = '\t' || c = '\n' || c = '\r' ||
  c = '\x0b' || c = '\x0c' || c = ' '

/-- Complement of `isSpaceChar`; the "non-whitespace content" of a string is
its `List.filter nonWsChar`. -/
def nonWsChar (c : Char) : Bool := !(isSpaceChar c)

/-- JS `\d` (ASCII digits). -/
def isDigitChar (c : Char) : Bool := '0' ≤ c && c ≤ '9'

/-! ## Bounded consuming patterns

A `Pat` is the consumed-length semantics of (a piece of) a regex: on a suffix
of the input it either fails or reports how many characters the piece
consumes.  The bound `n ≤ l.length` is carried in the structure so that the
length lemmas about the scanner apply to every pattern built from the
combinators. -/

theorem takeWhile_len_le {α : Type} (p : α → Bool) :
    ∀ l : List α, (l.takeWhile p).length ≤ l.length := by
  intro l
  induction l with
  | nil => simp
  | cons c rest ih =>
    by_cases h : p c = true
    · simp only [List.takeWhile_cons, h, if_true, List.length_cons]
      omega
    · simp [List.takeWhile_cons, h]

structure Pat where
  run : List Char → Option Nat
  bounded : ∀ l n, run l = some n → n ≤ l.length

/-- A pattern consumes at least one character whenever it succeeds. -/
def Pat.Pos (p : Pat) : Prop := ∀ l n, p.run l = some n → 1 ≤ n

/-- Single character satisfying a predicate (a regex character class). -/
def pCharP (p : Char → Bool) : Pat where
  run l := match l with
    | c :: _ => if p c then some 1 else none
    | [] => none
  bounded l n h := by
    cases l with
    | nil => simp at h
    | cons c rest =>
      simp only at h
      split at h
      · cases h; simp
      · cases h

/-- Literal character. -/
def pCh (c : Char) : Pat := pCharP (fun d => d = c)

theorem pCharP_pos (p : Char → Bool) : (pCharP p).Pos := by
  intro l n h
  cases l with
  | nil => simp [pCharP] at h
  | cons c rest =>
    simp only [pCharP] at h
    split at h
    · cases h; exact Nat.le_refl 1
    · cases h

/-- Sequencing (regex concatenation); the second piece runs on what the first
left over. -/
def pSeq (a b : Pat) : Pat where
  run l := match a.run l with
    | some n =>
      match b.run (l.drop n) with
      | some m => some (n + m)
      | none => none
    | none => none
  bounded l n h := by
    cases ha : a.run l with
    | none => simp [ha] at h
    | some na =>
      cases hb : b.run (l.drop na) with
      | none => simp [ha, hb] at h
      | some nb =>
        simp only [ha, hb] at h
        cases h
        have h1 := a.bounded l na ha
        have h2 := b.bounded (l.drop na) nb hb
        simp only [List.length_drop] at h2
        omega

theorem pSeq_pos_left (a b : Pat) (ha : a.Pos) : (pSeq a b).Pos := by
  intro l n h
  cases h1 : a.run l with
  | none => simp [pSeq, h1] at h
  | some na =>
    cases h2 : b.run (l.drop na) with
    | none => simp [pSeq, h1, h2] at h
    | some nb =>
      simp only [pSeq, h1, h2, Option.some_inj] at h
      have := ha l na h1
      omega

/-- Greedy `p+` for a character class (no backtracking is needed at the
places this is used: the following piece never matches the class). -/
def pMany1 (p : Char → Bool) : Pat where
  run l :=
    let n := (l.takeWhile p).length
    if n = 0 then none else some n
  bounded l n h := by
    simp only at h
    split at h
    · cases h
    · cases h
      exact takeWhile_len_le _ _

theorem pMany1_pos (p : Char → Bool) : (pMany1 p).Pos := by
  intro l n h
  simp only [pMany1] at h
  split at h
  · cases h
  · cases h; omega

/-- Greedy `p*` for a character class. -/
def pMany0 (p : Char → Bool) : Pat where
  run l := some (l.takeWhile p).length
  bounded l n h := by
    simp only at h
    cases h
    exact takeWhile_len_le _ _

/-- `a?` (greedy option; safe where the regexes use it because the optional
piece and what follows never overlap). -/
def pOpt (a : Pat) : Pat where
  run l := some ((a.run l).getD 0)
  bounded l n h := by
    simp only at h
    cases h
    cases ha : a.run l with
    | none => simp [ha]
    | some m => simpa [ha] using a.bounded l m ha

/-- Ordered alternation `a|b` (JS tries the left branch first). -/
def pAlt (a b : Pat) : Pat where
  run l := match a.run l with
    | some n => some n
    | none => b.run l
  bounded l n h := by
    cases ha : a.run l with
    | some m =>
      simp only [ha, Option.some_inj] at h
      exact h ▸ a.bounded l m ha
    | none =>
      simp only [ha] at h
      exact b.bounded l n h

theorem pAlt_pos (a b : Pat) (ha : a.Pos) (hb : b.Pos) : (pAlt a b).Pos := by
  intro l n h
  cases h1 : a.run l with
  | some m =>
    simp only [pAlt, h1, Option.some_inj] at h
    exact h ▸ ha l m h1
  | none =>
    simp only [pAlt, h1] at h
    exact hb l n h

/-- Literal string. -/
def pStr (s : List Char) : Pat where
  run l := if s.isPrefixOf l then some s.length else none
  bounded l n h := by
    simp only at h
    split at h
    · cases h
      exact (List.isPrefixOf_iff_prefix.mp (by assumption)).length_le
    · cases h

theorem pStr_pos (s : List Char) (hs : s ≠ []) : (pStr s).Pos := by
  intro l n h
  simp only [pStr] at h
  split at h
  · cases h
    cases s with
    | nil => exact absurd rfl hs
    | cons a as => simp
  · cases h

/-- Case-insensitive prefix test (`i` flag). -/
def ciPrefix : List Char → List Char → Bool
  | [], _ => true
  | _ :: _, [] => false
  | a :: as, b :: bs => (a.toLower = b.toLower) && ciPrefix as bs

theorem ciPrefix_length {s l : List Char} (h : ciPrefix s l = true) :
    s.length ≤ l.length := by
  induction s generalizing l with
  | nil => simp
  | cons a as ih =>
    cases l with
    | nil => simp [ciPrefix] at h
    | cons b bs =>
      simp only [ciPrefix, Bool.and_eq_true] at h
      simpa using ih h.2

/-- Case-insensitive literal string. -/
def pStrCI (s : List Char) : Pat where
  run l := if ciPrefix s l then some s.length else none
  bounded l n h := by
    simp only at h
    split at h
    · cases h
      exact ciPrefix_length (by assumption)
    · cases h

theorem pStrCI_pos (s : List Char) (hs : s ≠ []) : (pStrCI s).Pos := by
  intro l n h
  simp only [pStrCI] at h
  split at h
  · cases h
    cases s with
    | nil => exact absurd rfl hs
    | cons a as => simp
  · cases h

/-- Lazy `.*?X`: consume up to and including the first occurrence of `stopc`,
failing if a newline (which `.` does not match) comes first. -/
def lazyThroughAux (stopc : Char) : List Char → Option Nat
  | [] => none
  | c :: rest =>
    if c = stopc then some 1
    else if c = '\n' then none
    else (lazyThroughAux stopc rest).map (· + 1)

theorem lazyThroughAux_le (stopc : Char) :
    ∀ l n, lazyThroughAux stopc l = some n → n ≤ l.length ∧ 1 ≤ n := by
  intro l
  induction l with
  | nil => intro n h; simp [lazyThroughAux] at h
  | cons c rest ih =>
    intro n h
    simp only [lazyThroughAux] at h
    split at h
    · cases h; simp
    · split at h
      · cases h
      · cases hr : lazyThroughAux stopc rest with
        | none => rw [hr] at h; cases h
        | some m =>
          rw [hr] at h
          simp only [Option.map] at h
          cases h
          have := ih m hr
          constructor
          · simpa using Nat.add_le_add_right this.1 1
          · omega

def pLazyThrough (stopc : Char) : Pat where
  run := lazyThroughAux stopc
  bounded l n h := (lazyThroughAux_le stopc l n h).1

theorem pLazyThrough_pos (stopc : Char) : (pLazyThrough stopc).Pos :=
  fun l n h => (lazyThroughAux_le stopc l n h).2

/-! ## The replacement scanner

One `String.prototype.replace(/…/g, …)` call is the leftmost scan
`replaceScan m`: at each position the matcher `m` is tried; on a match of `n`
characters the replacement is emitted and scanning resumes after the match
(exactly the `g`-flag semantics), otherwise the character is copied.  The
Bool argument tracks whether the current position is a line start (for the
`m`-flagged `^` anchors).  The scan is written with fuel equal to the input
length; since every accepted match consumes at least one character the fuel
never runs out. -/

/-- A matcher: at a position (with its line-start flag) either fail or
return (consumed length, replacement). -/
def Matcher : Type := Bool → List Char → Option (Nat × List Char)

/-- Whether the position right after consuming `n` characters of `l` is a
line start (the last consumed character was a newline). -/
def lineStartAfter (atStart : Bool) (l : List Char) (n : Nat) : Bool :=
  match (l.take n).getLast? with
  | some c => c = '\n'
  | none => atStart

def replaceScanF (m : Matcher) : Nat → Bool → List Char → List Char
  | 0, _, l => l
  | _ + 1, _, [] => []
  | fuel + 1, atStart, c :: rest =>
    match m atStart (c :: rest) with
    | some (n, repl) =>
      if 1 ≤ n then
        repl ++ replaceScanF m fuel (lineStartAfter atStart (c :: rest) n)
          ((c :: rest).drop n)
      else
        c :: replaceScanF m fuel (c = '\n') rest
    | none => c :: replaceScanF m fuel (c = '\n') rest

/-- One global replace pass over a character list. -/
def replaceScan (m : Matcher) (l : List Char) : List Char :=
  replaceScanF m l.length true l

/-- The matcher property behind "a replace pass never grows the string":
every match consumes 1…`l.length` characters and emits at most as many. -/
def MatcherLenOK (m : Matcher) : Prop :=
  ∀ b l n r, m b l = some (n, r) → 1 ≤ n ∧ n ≤ l.length ∧ r.length ≤ n

theorem replaceScanF_length_le (m : Matcher) (hm : MatcherLenOK m) :
    ∀ fuel b l, (replaceScanF m fuel b l).length ≤ l.length := by
  intro fuel
  induction fuel with
  | zero => intro b l; simp [replaceScanF]
  | succ fuel ih =>
    intro b l
    cases l with
    | nil => simp [replaceScanF]
    | cons c rest =>
      cases hmc : m b (c :: rest) with
      | none =>
        simp only [replaceScanF, hmc, List.length_cons]
        have := ih (c = '\n') rest
        omega
      | some nr =>
        obtain ⟨n, repl⟩ := nr
        obtain ⟨h1, h2, h3⟩ := hm b (c :: rest) n repl hmc
        simp only [replaceScanF, hmc, h1, if_true, List.length_append]
        have hrec := ih (lineStartAfter b (c :: rest) n) ((c :: rest).drop n)
        simp only [List.length_drop, List.length_cons] at hrec h2 ⊢
        omega

theorem replaceScan_length_le (m : Matcher) (hm : MatcherLenOK m) (l : List Char) :
    (replaceScan m l).length ≤ l.length :=
  replaceScanF_length_le m hm l.length true l

/-- The matcher property behind "a replace pass only touches whitespace":
the replacement has the same non-whitespace characters as the consumed
prefix. -/
def MatcherKeepsContent (m : Matcher) : Prop :=
  ∀ b l n r, m b l = some (n, r) →
    r.filter nonWsChar = (l.take n).filter nonWsChar

theorem replaceScanF_filter_eq (m : Matcher) (hm : MatcherKeepsContent m) :
    ∀ fuel b l,
      (replaceScanF m fuel b l).filter nonWsChar = l.filter nonWsChar := by
  intro fuel
  induction fuel with
  | zero => intro b l; simp [replaceScanF]
  | succ fuel ih =>
    intro b l
    cases l with
    | nil => simp [replaceScanF]
    | cons c rest =>
      cases hmc : m b (c :: rest) with
      | none =>
        simp only [replaceScanF, hmc, List.filter_cons]
        rw [ih]
      | some nr =>
        obtain ⟨n, repl⟩ := nr
        by_cases h1 : 1 ≤ n
        · simp only [replaceScanF, hmc, h1, if_true, List.filter_append]
          rw [ih, hm b (c :: rest) n repl hmc]
          rw [← List.filter_append, List.take_append_drop]
        · simp only [replaceScanF, hmc, h1, if_false, List.filter_cons]
          rw [ih]

/-- The matcher property behind "a replace pass introduces no new characters
except newlines": every replacement character already occurs in the input or
is a newline. -/
def MatcherAddsOnlyNl (m : Matcher) : Prop :=
  ∀ b l n r, m b l = some (n, r) → ∀ c ∈ r, c ∈ l ∨ c = '\n'

theorem replaceScanF_mem (m : Matcher) (hm : MatcherAddsOnlyNl m) :
    ∀ fuel b l c, c ∈ replaceScanF m fuel b l → c ∈ l ∨ c = '\n' := by
  intro fuel
  induction fuel with
  | zero => intro b l c hc; simp [replaceScanF] at hc; exact Or.inl hc
  | succ fuel ih =>
    intro b l c hc
    cases l with
    | nil => simp [replaceScanF] at hc
    | cons d rest =>
      cases hmc : m b (d :: rest) with
      | none =>
        simp only [replaceScanF, hmc, List.mem_cons] at hc
        rcases hc with hc | hc
        · exact Or.inl (by simp [hc])
        · rcases ih (d = '\n') rest c hc with h | h
          · exact Or.inl (by simp [h])
          · exact Or.inr h
      | some nr =>
        obtain ⟨n, repl⟩ := nr
        by_cases h1 : 1 ≤ n
        · simp only [replaceScanF, hmc, h1, if_true, List.mem_append] at hc
          rcases hc with hc | hc
          · exact hm b (d :: rest) n repl hmc c hc
          · rcases ih _ _ c hc with h | h
            · exact Or.inl (List.mem_of_mem_drop h)
            · exact Or.inr h
        · simp only [replaceScanF, hmc, h1, if_false, List.mem_cons] at hc
          rcases hc with hc | hc
          · exact Or.inl (by simp [hc])
          · rcases ih (d = '\n') rest c hc with h | h
            · exact Or.inl (by simp [h])
            · exact Or.inr h

/-- A pass whose matcher only fires on a distinguished first character is the
identity on inputs not containing that character. -/
theorem replaceScanF_id_of_head (m : Matcher) (t : Char)
    (hm : ∀ b c rest, ¬(c = t) → m b (c :: rest) = none) :
    ∀ fuel b l, t ∉ l → replaceScanF m fuel b l = l := by
  intro fuel
  induction fuel with
  | zero => intro b l _; simp [replaceScanF]
  | succ fuel ih =>
    intro b l hl
    cases l with
    | nil => simp [replaceScanF]
    | cons c rest =>
      have hc : ¬(c = t) := by
        intro h
        exact hl (by simp [h])
      have hrest : t ∉ rest := fun h => hl (List.mem_cons_of_mem _ h)
      simp only [replaceScanF, hm b c rest hc]
      rw [ih (c = '\n') rest hrest]

/-! ## Trim (JS `String.prototype.trim`) -/

def trimChars (l : List Char) : List Char :=
  ((l.dropWhile isSpaceChar).reverse.dropWhile isSpaceChar).reverse

theorem dropWhile_len_le {α : Type} (p : α → Bool) (l : List α) :
    (l.dropWhile p).length ≤ l.length := by
  induction l with
  | nil => simp
  | cons c rest ih =>
    by_cases h : p c = true
    · simp only [List.dropWhile_cons, h, if_true, List.length_cons]
      omega
    · simp [List.dropWhile_cons, h]

theorem trimChars_length_le (l : List Char) : (trimChars l).length ≤ l.length := by
  unfold trimChars
  rw [List.length_reverse]
  calc ((l.dropWhile isSpaceChar).reverse.dropWhile isSpaceChar).length
      ≤ (l.dropWhile isSpaceChar).reverse.length := dropWhile_len_le _ _
    _ = (l.dropWhile isSpaceChar).length := List.length_reverse _
    _ ≤ l.length := dropWhile_len_le _ _

theorem filter_nonWs_dropWhile (l : List Char) :
    (l.dropWhile isSpaceChar).filter nonWsChar = l.filter nonWsChar := by
  induction l with
  | nil => simp
  | cons c rest ih =>
    by_cases h : isSpaceChar c = true
    · simp only [List.dropWhile_cons, h, if_true, List.filter_cons]
      have : nonWsChar c = false := by simp [nonWsChar, h]
      rw [this, ih]
      simp
    · simp [List.dropWhile_cons, h]

theorem filter_reverse_eq {α : Type} (p : α → Bool) (l : List α) :
    l.reverse.filter p = (l.filter p).reverse := by
  induction l with
  | nil => simp
  | cons c rest ih =>
    rw [List.reverse_cons, List.filter_append, ih, List.filter_cons]
    by_cases h : p c = true
    · simp [h, List.filter]
    · simp [h, List.filter]

theorem trimChars_filter_eq (l : List Char) :
    (trimChars l).filter nonWsChar = l.filter nonWsChar := by
  unfold trimChars
  rw [filter_reverse_eq, filter_nonWs_dropWhile, filter_reverse_eq,
    filter_nonWs_dropWhile, List.reverse_reverse]

theorem trimChars_mem {c : Char} {l : List Char} (h : c ∈ trimChars l) : c ∈ l := by
  unfold trimChars at h
  rw [List.mem_reverse] at h
  have h2 := List.dropWhile_sublist (l := (l.dropWhile isSpaceChar).reverse)
    (p := isSpaceChar)
  have h3 := h2.mem h
  rw [List.mem_reverse] at h3
  exact (List.dropWhile_sublist (l := l) (p := isSpaceChar)).mem h3

/-! ## `removeCitations` (src/index.js lines 297–347)

Each `.replace` in the chain becomes one scan pass.  The pure-deletion
regexes are given as `Pat`s; the link-rewrite, the `Sources:`-line regex
(`gim` flags, with the backtracking `\s*$`) and the whitespace collapses get
hand-written matchers. -/

def pDigits : Pat := pMany1 isDigitChar

/-- `/【\d+:\d+†.*?】/g` -/
def citePat1 : Pat :=
  pSeq (pCh '【') (pSeq pDigits (pSeq (pCh ':') (pSeq pDigits
    (pSeq (pCh '†') (pLazyThrough '】')))))

/-- `/【\d+†source】/g` -/
def citePat2 : Pat :=
  pSeq (pCh '【') (pSeq pDigits (pSeq (pCh '†')
    (pSeq (pStr "source".toList) (pCh '】'))))

/-- `/【\d+†.*?】/g` -/
def citePat3 : Pat :=
  pSeq (pCh '【') (pSeq pDigits (pSeq (pCh '†') (pLazyThrough '】')))

/-- `/【\d+】/g` -/
def citePat4 : Pat := pSeq (pCh '【') (pSeq pDigits (pCh '】'))

/-- `/\[\d+\]/g` -/
def citePat5 : Pat := pSeq (pCh '[') (pSeq pDigits (pCh ']'))

/-- `/\(\d+\)/g` -/
def citePat6 : Pat := pSeq (pCh '(') (pSeq pDigits (pCh ')'))

/-- `/\[\d+:\d+†.*?\]/g` -/
def citePat7 : Pat :=
  pSeq (pCh '[') (pSeq pDigits (pSeq (pCh ':') (pSeq pDigits
    (pSeq (pCh '†') (pLazyThrough ']')))))

/-- `/\[\d+:\d+†source\]/g` -/
def citePat8 : Pat :=
  pSeq (pCh '[') (pSeq pDigits (pSeq (pCh ':') (pSeq pDigits
    (pSeq (pCh '†') (pSeq (pStr "source".toList) (pCh ']'))))))

/-- `/\[\d+:\d+\]/g` -/
def citePat9 : Pat :=
  pSeq (pCh '[') (pSeq pDigits (pSeq (pCh ':') (pSeq pDigits (pCh ']'))))

/-- `/\(\d+:\d+\)/g` -/
def citePat10 : Pat :=
  pSeq (pCh '(') (pSeq pDigits (pSeq (pCh ':') (pSeq pDigits (pCh ')'))))

/-- `/\[\d+:\d+\*.*?\]/g` -/
def citePat11 : Pat :=
  pSeq (pCh '[') (pSeq pDigits (pSeq (pCh ':') (pSeq pDigits
    (pSeq (pCh '*') (pLazyThrough ']')))))

/-- `/\[\d+:\d+\-.*?\]/g` -/
def citePat12 : Pat :=
  pSeq (pCh '[') (pSeq pDigits (pSeq (pCh ':') (pSeq pDigits
    (pSeq (pCh '-') (pLazyThrough ']')))))

/-- `/\[\d+:\d+[†\*\-]?.*?\]/gi` -/
def citePat13 : Pat :=
  pSeq (pCh '[') (pSeq pDigits (pSeq (pCh ':') (pSeq pDigits
    (pSeq (pOpt (pCharP (fun c => c = '†' || c = '*' || c = '-')))
      (pLazyThrough ']')))))

/-- `/\(\d+:\d+†.*?\)/g` -/
def citePat14 : Pat :=
  pSeq (pCh '(') (pSeq pDigits (pSeq (pCh ':') (pSeq pDigits
    (pSeq (pCh '†') (pLazyThrough ')')))))

/-- A pure-deletion pass (replacement `''`). -/
def delMatcher (p : Pat) : Matcher := fun _ l => (p.run l).map (fun n => (n, []))

theorem delMatcher_lenOK (p : Pat) (hp : p.Pos) : MatcherLenOK (delMatcher p) := by
  intro b l n r h
  cases hr : p.run l with
  | none => simp [delMatcher, hr] at h
  | some m =>
    simp only [delMatcher, hr, Option.map, Option.some_inj, Prod.mk.injEq] at h
    obtain ⟨hn, hrr⟩ := h
    subst hn
    subst hrr
    exact ⟨hp l m hr, p.bounded l m hr, by simp⟩

theorem pCh_pos (c : Char) : (pCh c).Pos := pCharP_pos _

theorem citePat1_pos : citePat1.Pos := pSeq_pos_left _ _ (pCh_pos _)
theorem citePat2_pos : citePat2.Pos := pSeq_pos_left _ _ (pCh_pos _)
theorem citePat3_pos : citePat3.Pos := pSeq_pos_left _ _ (pCh_pos _)
theorem citePat4_pos : citePat4.Pos := pSeq_pos_left _ _ (pCh_pos _)
theorem citePat5_pos : citePat5.Pos := pSeq_pos_left _ _ (pCh_pos _)
theorem citePat6_pos : citePat6.Pos := pSeq_pos_left _ _ (pCh_pos _)
theorem citePat7_pos : citePat7.Pos := pSeq_pos_left _ _ (pCh_pos _)
theorem citePat8_pos : citePat8.Pos := pSeq_pos_left _ _ (pCh_pos _)
theorem citePat9_pos : citePat9.Pos := pSeq_pos_left _ _ (pCh_pos _)
theorem citePat10_pos : citePat10.Pos := pSeq_pos_left _ _ (pCh_pos _)
theorem citePat11_pos : citePat11.Pos := pSeq_pos_left _ _ (pCh_pos _)
theorem citePat12_pos : citePat12.Pos := pSeq_pos_left _ _ (pCh_pos _)
theorem citePat13_pos : citePat13.Pos := pSeq_pos_left _ _ (pCh_pos _)
theorem citePat14_pos : citePat14.Pos := pSeq_pos_left _ _ (pCh_pos _)

/-- `/\[([^\]]*)\]\(([^)]+)\)/g → '$2'`: markdown link to bare url. -/
def linkMatcher : Matcher := fun _ l =>
  match l with
  | [] => none
  | c :: rest =>
    if c = '[' then
      let label := rest.takeWhile (fun d => !(d = ']'))
      match rest.drop label.length with
      | c1 :: c2 :: rest3 =>
        if c1 = ']' ∧ c2 = '(' then
          let url := rest3.takeWhile (fun d => !(d = ')'))
          if url.length = 0 then none
          else
            match rest3.drop url.length with
            | c3 :: _ => if c3 = ')' then some (label.length + url.length + 4, url) else none
            | [] => none
      else none
      | [] => none
      | [_] => none
    else none

theorem linkMatcher_lenOK : MatcherLenOK linkMatcher := by
  intro b l n r h
  cases l with
  | nil => simp [linkMatcher] at h
  | cons c rest =>
    simp only [linkMatcher] at h
    split at h
    case isFalse => cases h
    case isTrue hc =>
      split at h
      case h_2 => cases h
      case h_3 => cases h
      case h_1 c1 c2 rest3 hdrop =>
        split at h
        case isFalse => cases h
        case isTrue hc12 =>
          split at h
          case isTrue => cases h
          case isFalse hurl =>
            split at h
            case h_2 => cases h
            case h_1 c3 tail hdrop3 =>
              split at h
              case isFalse => cases h
              case isTrue hc3 =>
                simp only [Option.some_inj, Prod.mk.injEq] at h
                obtain ⟨hn, hr⟩ := h
                subst hn
                subst hr
                have hlab : (rest.takeWhile (fun d => !(d = ']'))).length ≤ rest.length :=
                  takeWhile_len_le _ _
                have hurl2 : (rest3.takeWhile (fun d => !(d = ')'))).length ≤ rest3.length :=
                  takeWhile_len_le _ _
                have e1 : rest.length - (rest.takeWhile (fun d => !(d = ']'))).length
                    = rest3.length + 2 := by
                  have := congrArg List.length hdrop
                  simpa using this
                have e2 : rest3.length - (rest3.takeWhile (fun d => !(d = ')'))).length
                    = tail.length + 1 := by
                  have := congrArg List.length hdrop3
                  simpa using this
                refine ⟨by omega, ?_, ?_⟩
                · simp only [List.length_cons]
                  omega
                · omega

/-- `(Sources?|Fontes?):` — the word part of the `Sources:` line regex
(`i` flag ⇒ case-insensitive, ordered alternation). -/
def sourcesWordPat : Pat :=
  pSeq (pAlt (pAlt (pStrCI "sources".toList) (pStrCI "source".toList))
    (pAlt (pStrCI "fontes".toList) (pStrCI "fonte".toList))) (pCh ':')

theorem sourcesWordPat_pos : sourcesWordPat.Pos :=
  pSeq_pos_left _ _ (pAlt_pos _ _
    (pAlt_pos _ _ (pStrCI_pos _ (by simp)) (pStrCI_pos _ (by simp)))
    (pAlt_pos _ _ (pStrCI_pos _ (by simp)) (pStrCI_pos _ (by simp))))

/-- `/^(Sources?|Fontes?):\s*$/gim → ''`.  `^` requires a line start; the
greedy `\s*` backtracks so that `$` holds, i.e. it consumes up to the end of
the whitespace run when the string ends there, and otherwise up to (not
including) the last newline of the run. -/
def sourcesMatcher : Matcher := fun atStart l =>
  match atStart, sourcesWordPat.run l with
  | true, some w =>
    let tail := l.drop w
    let run := tail.takeWhile isSpaceChar
    if (tail.drop run.length).isEmpty then some (w + run.length, [])
    else if run.contains '\n' then
      some (w + (run.length - 1 -
        (run.reverse.takeWhile (fun c => !(c = '\n'))).length), [])
    else none
  | _, _ => none

theorem sourcesMatcher_lenOK : MatcherLenOK sourcesMatcher := by
  intro b l n r h
  cases b with
  | false => simp [sourcesMatcher] at h
  | true =>
    cases hw : sourcesWordPat.run l with
    | none => simp [sourcesMatcher, hw] at h
    | some w =>
      simp only [sourcesMatcher, hw] at h
      have hwb := sourcesWordPat.bounded l w hw
      have hwp := sourcesWordPat_pos l w hw
      have hrun : ((l.drop w).takeWhile isSpaceChar).length ≤ (l.drop w).length :=
        takeWhile_len_le _ _
      simp only [List.length_drop] at hrun
      split at h
      · simp only [Option.some_inj, Prod.mk.injEq] at h
        obtain ⟨hn, hr⟩ := h
        subst hn
        subst hr
        exact ⟨by omega, by omega, by simp⟩
      · split at h
        · simp only [Option.some_inj, Prod.mk.injEq] at h
          obtain ⟨hn, hr⟩ := h
          subst hn
          subst hr
          exact ⟨by omega, by omega, by simp⟩
        · cases h

/-- `/\s+/g → ' '` (collapse whitespace runs to one space). -/
def wsCollapseMatcher : Matcher := fun _ l =>
  let n := (l.takeWhile isSpaceChar).length
  if n = 0 then none else some (n, [' '])

theorem wsCollapseMatcher_lenOK : MatcherLenOK wsCollapseMatcher := by
  intro b l n r h
  simp only [wsCollapseMatcher] at h
  split at h
  · cases h
  · simp only [Option.some_inj, Prod.mk.injEq] at h
    obtain ⟨hn, hr⟩ := h
    subst hn
    subst hr
    refine ⟨by omega, takeWhile_len_le _ _, by simp; omega⟩

/-- `/\n\s*\n\s*\n/g → '\n\n'`.  With backtracking the match runs from the
first newline through the last newline of the surrounding whitespace run,
provided that run holds at least three newlines. -/
def tripleNlMatcher : Matcher := fun _ l =>
  match l with
  | c :: _ =>
    if c = '\n' then
      let run := l.takeWhile isSpaceChar
      if 3 ≤ run.count '\n' then
        some (run.length - (run.reverse.takeWhile (fun d => !(d = '\n'))).length,
          ['\n', '\n'])
      else none
    else none
  | [] => none

theorem count_le_len_sub_trailing (run : List Char) :
    run.count '\n' ≤
      run.length - (run.reverse.takeWhile (fun d => !(d = '\n'))).length := by
  have hsplit : run.reverse.takeWhile (fun d => !(d = '\n')) ++
      run.reverse.dropWhile (fun d => !(d = '\n')) = run.reverse :=
    List.takeWhile_append_dropWhile _ _
  have hcr : run.count '\n' = run.reverse.count '\n' := (List.count_reverse _ _).symm
  have hca : run.reverse.count '\n' =
      (run.reverse.takeWhile (fun d => !(d = '\n'))).count '\n' +
      (run.reverse.dropWhile (fun d => !(d = '\n'))).count '\n' := by
    conv_lhs => rw [← hsplit]
    exact List.count_append _ _ _
  have hz : (run.reverse.takeWhile (fun d => !(d = '\n'))).count '\n' = 0 := by
    rw [List.count_eq_zero]
    intro hmem
    have := List.mem_takeWhile_imp hmem
    simp at this
  have hdl : (run.reverse.dropWhile (fun d => !(d = '\n'))).count '\n' ≤
      (run.reverse.dropWhile (fun d => !(d = '\n'))).length :=
    List.count_le_length _ _
  have hlen : (run.reverse.takeWhile (fun d => !(d = '\n'))).length +
      (run.reverse.dropWhile (fun d => !(d = '\n'))).length = run.length := by
    have h2 := congrArg List.length hsplit
    rw [List.length_append, List.length_reverse] at h2
    exact h2
  omega

theorem tripleNlMatcher_lenOK : MatcherLenOK tripleNlMatcher := by
  intro b l n r h
  cases l with
  | nil => simp [tripleNlMatcher] at h
  | cons c rest =>
    simp only [tripleNlMatcher] at h
    split at h
    case isFalse => cases h
    case isTrue hc =>
      split at h
      case isFalse => cases h
      case isTrue hcount =>
        simp only [Option.some_inj, Prod.mk.injEq] at h
        obtain ⟨hn, hr⟩ := h
        subst hn
        subst hr
        have hkey := count_le_len_sub_trailing ((c :: rest).takeWhile isSpaceChar)
        have hrun : ((c :: rest).takeWhile isSpaceChar).length ≤ (c :: rest).length :=
          takeWhile_len_le _ _
        refine ⟨by omega, by omega, by simp; omega⟩

/-- `removeCitations` on the character list (the full `.replace` chain minus
the final `.trim()`; passes in source order). -/
def removeCitationsList (l : List Char) : List Char :=
  replaceScan tripleNlMatcher
    (replaceScan wsCollapseMatcher
      (replaceScan sourcesMatcher
        (replaceScan linkMatcher
          (replaceScan (delMatcher citePat14)
            (replaceScan (delMatcher citePat13)
              (replaceScan (delMatcher citePat12)
                (replaceScan (delMatcher citePat11)
                  (replaceScan (delMatcher citePat10)
                    (replaceScan (delMatcher citePat9)
                      (replaceScan (delMatcher citePat8)
                        (replaceScan (delMatcher citePat7)
                          (replaceScan (delMatcher citePat6)
                            (replaceScan (delMatcher citePat5)
                              (replaceScan (delMatcher citePat4)
                                (replaceScan (delMatcher citePat3)
                                  (replaceScan (delMatcher citePat2)
                                    (replaceScan (delMatcher citePat1) l)))))))))))))))))

/-- `removeCitations(text)` (src/index.js lines 297–347): `if (!text) return ''`,
then the replace chain, then `.trim()`. -/
def removeCitations (text : String) : String :=
  if text = "" then ""
  else String.mk (trimChars (removeCitationsList text.toList))

theorem removeCitationsList_length_le (l : List Char) :
    (removeCitationsList l).length ≤ l.length := by
  unfold removeCitationsList
  refine le_trans (replaceScan_length_le _ tripleNlMatcher_lenOK _) ?_
  refine le_trans (replaceScan_length_le _ wsCollapseMatcher_lenOK _) ?_
  refine le_trans (replaceScan_length_le _ sourcesMatcher_lenOK _) ?_
  refine le_trans (replaceScan_length_le _ linkMatcher_lenOK _) ?_
  refine le_trans (replaceScan_length_le _ (delMatcher_lenOK _ citePat14_pos) _) ?_
  refine le_trans (replaceScan_length_le _ (delMatcher_lenOK _ citePat13_pos) _) ?_
  refine le_trans (replaceScan_length_le _ (delMatcher_lenOK _ citePat12_pos) _) ?_
  refine le_trans (replaceScan_length_le _ (delMatcher_lenOK _ citePat11_pos) _) ?_
  refine le_trans (replaceScan_length_le _ (delMatcher_lenOK _ citePat10_pos) _) ?_
  refine le_trans (replaceScan_length_le _ (delMatcher_lenOK _ citePat9_pos) _) ?_
  refine le_trans (replaceScan_length_le _ (delMatcher_lenOK _ citePat8_pos) _) ?_
  refine le_trans (replaceScan_length_le _ (delMatcher_lenOK _ citePat7_pos) _) ?_
  refine le_trans (replaceScan_length_le _ (delMatcher_lenOK _ citePat6_pos) _) ?_
  refine le_trans (replaceScan_length_le _ (delMatcher_lenOK _ citePat5_pos) _) ?_
  refine le_trans (replaceScan_length_le _ (delMatcher_lenOK _ citePat4_pos) _) ?_
  refine le_trans (replaceScan_length_le _ (delMatcher_lenOK _ citePat3_pos) _) ?_
  refine le_trans (replaceScan_length_le _ (delMatcher_lenOK _ citePat2_pos) _) ?_
  exact replaceScan_length_le _ (delMatcher_lenOK _ citePat1_pos) _

/-! ## `formatForWhatsApp` (src/index.js lines 350–385) -/

/-- The capital-letter class `[A-ZÀÁÂÃÄÅÆÇÈÉÊËÌÍÎÏÐÑÒÓÔÕÖØÙÚÛÜÝÞ]`. -/
def upperAccented : List Char :=
  ['À', 'Á', 'Â', 'Ã', 'Ä', 'Å', 'Æ', 'Ç', 'È', 'É', 'Ê', 'Ë', 'Ì', 'Í', 'Î',
   'Ï', 'Ð', 'Ñ', 'Ò', 'Ó', 'Ô', 'Õ', 'Ö', 'Ø', 'Ù', 'Ú', 'Û', 'Ü', 'Ý', 'Þ']

def isUpperTarget (c : Char) : Bool :=
  ('A' ≤ c && c ≤ 'Z') || upperAccented.contains c

def isEndPunct (c : Char) : Bool := c = '.' || c = '!' || c = '?'

def isAsciiLetter (c : Char) : Bool := ('a' ≤ c && c ≤ 'z') || ('A' ≤ c && c ≤ 'Z')

def isLocalChar (c : Char) : Bool :=
  isAsciiLetter c || isDigitChar c || c = '.' || c = '_' || c = '%' || c = '+' || c = '-'

def isDomainChar (c : Char) : Bool :=
  isAsciiLetter c || isDigitChar c || c = '.' || c = '-'

/-- All `'$1\n\n$2'` passes share this shape: a first character from a class,
a space, then a token; the space becomes `'\n\n'`. -/
def breakMatcher (firstOk : Char → Bool) (tok : List Char → Option Nat) : Matcher :=
  fun _ l =>
  match l with
  | c1 :: c2 :: rest =>
    if firstOk c1 ∧ c2 = ' ' then
      match tok rest with
      | some k => some (2 + k, c1 :: '\n' :: '\n' :: rest.take k)
      | none => none
    else none
  | _ => none

/-- Token of `/\. ([A-Z…])/` and `/: ([A-Z…])/`: one capital letter. -/
def capTok (l : List Char) : Option Nat := (pCharP isUpperTarget).run l

/-- Token of `https?:\/\/[^\s]+`. -/
def urlTok (l : List Char) : Option Nat :=
  (pSeq (pStr "http".toList) (pSeq (pOpt (pCh 's'))
    (pSeq (pStr "://".toList) (pMany1 nonWsChar)))).run l

/-- The `[a-zA-Z0-9.-]+\.[a-zA-Z]{2,}` tail of the email regex: the greedy
domain run backtracks to the rightmost `.` that is followed by at least two
letters. -/
def emailDomainSplit : List Char → Option Nat
  | [] => none
  | c :: rest =>
    match emailDomainSplit rest with
    | some n => some (n + 1)
    | none =>
      if c = '.' then
        let letters := rest.takeWhile isAsciiLetter
        if 2 ≤ letters.length then some (1 + letters.length) else none
      else none

/-- Token of `[a-zA-Z0-9._%+-]+@[a-zA-Z0-9.-]+\.[a-zA-Z]{2,}`. -/
def emailTok (l : List Char) : Option Nat :=
  let localPart := l.takeWhile isLocalChar
  if localPart.length = 0 then none
  else
    match l.drop localPart.length with
    | c :: rest2 =>
      if c = '@' then
        let span := rest2.takeWhile isDomainChar
        match emailDomainSplit span with
        | some dlen => some (localPart.length + 1 + dlen)
        | none => none
      else none
    | [] => none

/-- Token of `\+?\d{2}\d{8,}` (an optional `+` and at least ten digits,
greedily all of them). -/
def phoneTok (l : List Char) : Option Nat :=
  match l with
  | '+' :: rest =>
    let ds := rest.takeWhile isDigitChar
    if 10 ≤ ds.length then some (1 + ds.length) else none
  | _ =>
    let ds := l.takeWhile isDigitChar
    if 10 ≤ ds.length then some ds.length else none

/-- Ordered literal alternation (`(A|B|…)`). -/
def altStrTok : List (List Char) → List Char → Option Nat
  | [], _ => none
  | s :: ss, l => if s.isPrefixOf l then some s.length else altStrTok ss l

/-- `(Como posso|Posso|Gostaria|Deseja|Precisa)` -/
def questionTok (l : List Char) : Option Nat :=
  altStrTok ["Como posso".toList, "Posso".toList, "Gostaria".toList,
    "Deseja".toList, "Precisa".toList] l

/-- `(Obrigad[oa]|Atenciosamente|Cordialmente)` -/
def closingTok (l : List Char) : Option Nat :=
  altStrTok ["Obrigado".toList, "Obrigada".toList, "Atenciosamente".toList,
    "Cordialmente".toList] l

/-- `/^- /gm → '• '` (list bullets; the only pass that rewrites a
non-whitespace character). -/
def bulletMatcher : Matcher := fun atStart l =>
  match atStart, l with
  | true, c1 :: c2 :: _ =>
    if c1 = '-' ∧ c2 = ' ' then some (2, ['•', ' ']) else none
  | _, _ => none

/-- `/\n{3,}/g → '\n\n'`. -/
def manyNlMatcher : Matcher := fun _ l =>
  let k := (l.takeWhile (fun c => c = '\n')).length
  if 3 ≤ k then some (k, ['\n', '\n']) else none

/-- The `.replace` chain of `formatForWhatsApp` in source order (the final
`.trim()` sits in the `String`-level wrapper). -/
def formatForWhatsAppList (l : List Char) : List Char :=
  replaceScan manyNlMatcher
    (replaceScan (breakMatcher isEndPunct closingTok)
      (replaceScan (breakMatcher isEndPunct questionTok)
        (replaceScan (breakMatcher isEndPunct phoneTok)
          (replaceScan (breakMatcher isEndPunct emailTok)
            (replaceScan (breakMatcher isEndPunct urlTok)
              (replaceScan bulletMatcher
                (replaceScan (breakMatcher (fun c => c = ':') capTok)
                  (replaceScan (breakMatcher (fun c => c = '.') capTok) l))))))))

/-- `formatForWhatsApp(text)` (src/index.js lines 350–385). -/
def formatForWhatsApp (text : String) : String :=
  if text = "" then ""
  else String.mk (trimChars (formatForWhatsAppList text.toList))

theorem take_takeWhile_len {α : Type} (p : α → Bool) (l : List α) :
    l.take (l.takeWhile p).length = l.takeWhile p := by
  induction l with
  | nil => simp
  | cons c rest ih =>
    by_cases h : p c = true
    · simp only [List.takeWhile_cons, h, if_true, List.length_cons,
        List.take_succ_cons]
      rw [ih]
    · simp [List.takeWhile_cons, h]

theorem breakMatcher_keeps (firstOk : Char → Bool) (tok : List Char → Option Nat) :
    MatcherKeepsContent (breakMatcher firstOk tok) := by
  intro b l n r h
  cases l with
  | nil => simp [breakMatcher] at h
  | cons c1 rest1 =>
    cases rest1 with
    | nil => simp [breakMatcher] at h
    | cons c2 rest =>
      simp only [breakMatcher] at h
      split at h
      case isFalse => cases h
      case isTrue hg =>
        cases ht : tok rest with
        | none => rw [ht] at h; cases h
        | some k =>
          rw [ht] at h
          simp only [Option.some_inj, Prod.mk.injEq] at h
          obtain ⟨hn, hr⟩ := h
          subst hn
          subst hr
          obtain ⟨-, hsp⟩ := hg
          subst hsp
          show _ = List.filter nonWsChar (List.take (2 + k) (c1 :: ' ' :: rest))
          have htake : List.take (2 + k) (c1 :: ' ' :: rest)
              = c1 :: ' ' :: rest.take k := by
            have h2k : 2 + k = (k + 1) + 1 := by omega
            rw [h2k, List.take_succ_cons, List.take_succ_cons]
          rw [htake]
          have h1 : nonWsChar ' ' = false := by decide
          have h2 : nonWsChar '\n' = false := by decide
          simp [List.filter_cons, h1, h2]

theorem breakMatcher_nl (firstOk : Char → Bool) (tok : List Char → Option Nat) :
    MatcherAddsOnlyNl (breakMatcher firstOk tok) := by
  intro b l n r h c hc
  cases l with
  | nil => simp [breakMatcher] at h
  | cons c1 rest1 =>
    cases rest1 with
    | nil => simp [breakMatcher] at h
    | cons c2 rest =>
      simp only [breakMatcher] at h
      split at h
      case isFalse => cases h
      case isTrue hg =>
        cases ht : tok rest with
        | none => rw [ht] at h; cases h
        | some k =>
          rw [ht] at h
          simp only [Option.some_inj, Prod.mk.injEq] at h
          obtain ⟨hn, hr⟩ := h
          subst hr
          simp only [List.mem_cons] at hc
          rcases hc with hc | hc | hc | hc
          · exact Or.inl (by simp [hc])
          · exact Or.inr hc
          · exact Or.inr hc
          · exact Or.inl (by
              simp only [List.mem_cons]
              exact Or.inr (Or.inr (List.mem_of_mem_take hc)))

theorem manyNlMatcher_keeps : MatcherKeepsContent manyNlMatcher := by
  intro b l n r h
  simp only [manyNlMatcher] at h
  split at h
  case isFalse => cases h
  case isTrue hk =>
    simp only [Option.some_inj, Prod.mk.injEq] at h
    obtain ⟨hn, hr⟩ := h
    subst hn
    subst hr
    rw [take_takeWhile_len]
    have h1 : List.filter nonWsChar (l.takeWhile (fun c => c = '\n')) = [] := by
      rw [List.filter_eq_nil_iff]
      intro c hc
      have := List.mem_takeWhile_imp hc
      simp only [decide_eq_true_eq] at this
      subst this
      decide
    rw [h1]
    decide

theorem manyNlMatcher_nl : MatcherAddsOnlyNl manyNlMatcher := by
  intro b l n r h c hc
  simp only [manyNlMatcher] at h
  split at h
  case isFalse => cases h
  case isTrue =>
    simp only [Option.some_inj, Prod.mk.injEq] at h
    obtain ⟨-, hr⟩ := h
    subst hr
    simp only [List.mem_cons, List.not_mem_nil, or_false] at hc
    rcases hc with hc | hc <;> exact Or.inr hc

theorem bulletMatcher_head (b : Bool) (c : Char) (rest : List Char)
    (hc : ¬(c = '-')) : bulletMatcher b (c :: rest) = none := by
  cases b with
  | false => rfl
  | true =>
    cases rest with
    | nil => rfl
    | cons c2 rest2 =>
      simp only [bulletMatcher]
      rw [if_neg]
      intro hg
      exact hc hg.1

/-- A pass built from a matcher that only inserts characters already present
or newlines cannot introduce `'-'`. -/
theorem replaceScan_no_dash (m : Matcher) (hm : MatcherAddsOnlyNl m)
    (l : List Char) (hl : '-' ∉ l) : '-' ∉ replaceScan m l := by
  intro h
  rcases replaceScanF_mem m hm l.length true l '-' h with h2 | h2
  · exact hl h2
  · cases h2

/-! ## JavaScript values and the thread-id validator
(src/index.js lines 393–410) -/

/-- The JavaScript values the validator helpers are exposed to: strings,
numbers (integral is enough here), booleans, `null`, `undefined`, and
objects, where only the presence (and value) of an `id` property matters. -/
inductive JSValue where
  | str (s : String)
  | num (n : Int)
  | jsBool (b : Bool)
  | jsNull
  | undef
  | objNoId
  | objWithId (idv : JSValue)
  deriving DecidableEq, Repr

/-- JS truthiness. -/
def truthy : JSValue → Bool
  | .str s => !(s = "")
  | .num n => !(n = 0)
  | .jsBool b => b
  | .jsNull => false
  | .undef => false
  | .objNoId => true
  | .objWithId _ => true

/-- Generic JS `String(value)` conversion. -/
def jsToString : JSValue → String
  | .str s => s
  | .num n => toString n
  | .jsBool b => if b then "true" else "false"
  | .jsNull => "null"
  | .undef => "undefined"
  | .objNoId => "[object Object]"
  | .objWithId _ => "[object Object]"

/-- `forceString(value)` (src/index.js lines 393–397):
strings pass through; a truthy object with a truthy `id` yields
`String(value.id)`; otherwise `String(value || '')`. -/
def forceString : JSValue → String
  | .str s => s
  | .objWithId idv =>
    if truthy idv then jsToString idv else jsToString (JSValue.objWithId idv)
  | v => if truthy v then jsToString v else ""

/-- JS `s.startsWith(p)`, on the character lists. -/
def strStartsWith (s p : String) : Bool := p.toList.isPrefixOf s.toList

/-- The validator condition on an already-coerced string. -/
def isValidStr (c : String) : Bool :=
  (!(c = "")) && strStartsWith c "thread_" && decide (c.length > 10)

/-- `isValidThreadId(threadId)` (src/index.js lines 399–402). -/
def isValidThreadId (threadId : JSValue) : Bool :=
  isValidStr (forceString threadId)

/-- `ensureStringThreadId(threadId)` (src/index.js lines 404–410): returns
the coerced string or throws `Invalid thread ID: …`. -/
def ensureStringThreadId (threadId : JSValue) : Except String String :=
  let cleanId := forceString threadId
  if isValidThreadId (.str cleanId) then .ok cleanId
  else .error ("Invalid thread ID: " ++ cleanId)

/-- The coercion as the claim C10 words it: an object with an `id` field
coerces to `String` of that field, `null`/`undefined` coerce to the empty
string, anything else to its generic string conversion.
(Modelled from the claim's wording, for comparison with `forceString`.) -/
def claimCoerce : JSValue → String
  | .objWithId idv => jsToString idv
  | .jsNull => ""
  | .undef => ""
  | v => jsToString v

/-- The acceptance condition as claim C10 words it. -/
def claimAccept (c : String) : Bool :=
  strStartsWith c "thread_" && decide (c.length > 10)

/-! ## The `ThreadManager` session store (src/index.js lines 412–493)

The JS object `this.threads` is an insertion-ordered association list; the
persisted `threadMap.json` registry is carried in the state as its parsed
entry list, so that every `saveThreads()` is observable. -/

def assocGet : List (String × String) → String → Option String
  | [], _ => none
  | (k', v') :: rest, k => if k' = k then some v' else assocGet rest k

def assocSet : List (String × String) → String → String → List (String × String)
  | [], k, v => [(k, v)]
  | (k', v') :: rest, k, v =>
    if k' = k then (k, v) :: rest else (k', v') :: assocSet rest k v

def assocRemove : List (String × String) → String → List (String × String)
  | [], _ => []
  | (k', v') :: rest, k =>
    if k' = k then assocRemove rest k else (k', v') :: assocRemove rest k

structure TMState where
  threads : List (String × String)
  firstInteractions : List String
  file : List (String × JSValue)
  deriving DecidableEq, Repr

/-- `loadThreads()` (lines 419–442): coerce each persisted entry and keep
only valid ones. -/
def loadThreads (persisted : List (String × JSValue)) : List (String × String) :=
  persisted.foldl
    (fun cleaned kv =>
      let cleanValue := forceString kv.2
      if isValidThreadId (.str cleanValue) then assocSet cleaned kv.1 cleanValue
      else cleaned)
    []

/-- `saveThreads()` (lines 444–450): rewrite the registry file from the
in-memory map. -/
def saveThreads (threads : List (String × String)) : List (String × JSValue) :=
  threads.map (fun e => (e.1, JSValue.str e.2))

/-- The `ThreadManager` constructor (lines 413–417): load and clean the
persisted registry; the file itself is not touched. -/
def TMState.init (persisted : List (String × JSValue)) : TMState :=
  { threads := loadThreads persisted, firstInteractions := [], file := persisted }

/-- `getThreadId(from)` (lines 452–462). -/
def getThreadId (tm : TMState) (from_ : String) : Option String :=
  match assocGet tm.threads from_ with
  | some raw => if isValidThreadId (.str raw) then some raw else none
  | none => none

/-- `setThreadId(from, threadId)` (lines 464–470); on a validation failure
the exception propagates before any mutation. -/
def setThreadId (tm : TMState) (from_ : String) (threadId : JSValue) :
    TMState × Except String String :=
  match ensureStringThreadId threadId with
  | .error e => (tm, .error e)
  | .ok cleanId =>
    let threads' := assocSet tm.threads from_ cleanId
    ({ tm with threads := threads', file := saveThreads threads' }, .ok cleanId)

/-- `removeThread(from)` (lines 472–477). -/
def removeThread (tm : TMState) (from_ : String) : TMState :=
  let threads' := assocRemove tm.threads from_
  { threads := threads',
    firstInteractions := tm.firstInteractions.filter (fun u => !(u = from_)),
    file := saveThreads threads' }

/-- `isFirstInteraction(from)` (lines 480–492); returns the flag and the
state (the `firstInteractions` set gains the user on a first interaction). -/
def isFirstInteraction (tm : TMState) (from_ : String) : Bool × TMState :=
  if (getThreadId tm from_).isSome then (false, tm)
  else
    (true,
     { tm with firstInteractions :=
        if from_ ∈ tm.firstInteractions then tm.firstInteractions
        else tm.firstInteractions ++ [from_] })

/-! ## The run driver (src/index.js lines 645–780)

The OpenAI client is an explicit environment of fallible operations; the
polling loop of `waitForRunCompletion` is written with fuel
`maxAttempts - attempts` (the loop increments `attempts` by one per
iteration, so this is exactly the `while (attempts < maxAttempts)` bound),
and the number of `runs.retrieve` calls issued is returned alongside the
result. -/

inductive RunStatus where
  | queued
  | inProgress
  | completed
  | failed
  | cancelled
  | expired
  deriving DecidableEq, Repr

def RunStatus.asString : RunStatus → String
  | .queued => "queued"
  | .inProgress => "in_progress"
  | .completed => "completed"
  | .failed => "failed"
  | .cancelled => "cancelled"
  | .expired => "expired"

/-- The statuses the loop treats as terminal failures
(`failed`, `cancelled`, `expired`). -/
def isFailStatus (st : RunStatus) : Bool :=
  st = .failed || st = .cancelled || st = .expired

structure RunInfo where
  id : String
  status : RunStatus
  deriving DecidableEq, Repr

structure ThreadMsg where
  role : String
  contentType : String
  textValue : String
  deriving DecidableEq, Repr

/-- The remote assistant backend: `threads.create` (its returned `id`),
`messages.create`, `runs.create`, `runs.retrieve` (indexed by the attempt
counter) and `messages.list` (most recent first). -/
structure RemoteEnv where
  createThread : Except String JSValue
  addMessage : String → String → Except String Unit
  runCreate : String → Except String RunInfo
  retrieveRun : String → String → Nat → Except String RunStatus
  listMessages : String → Except String (List ThreadMsg)

/-- `createNewThread()` (lines 646–656). -/
def createNewThread (env : RemoteEnv) : Except String String :=
  match env.createThread with
  | .error e => .error e
  | .ok respId => ensureStringThreadId respId

/-- `addMessageToThread(threadId, messageText)` (lines 658–679). -/
def addMessageToThread (env : RemoteEnv) (threadId : JSValue)
    (messageText : String) : Except String Unit :=
  match ensureStringThreadId threadId with
  | .error e => .error e
  | .ok clean => env.addMessage clean messageText

/-- `runAssistant(threadId)` (lines 681–702). -/
def runAssistant (env : RemoteEnv) (threadId : JSValue) : Except String RunInfo :=
  match ensureStringThreadId threadId with
  | .error e => .error e
  | .ok clean => env.runCreate clean

/-- `const maxAttempts = 60` (line 708). -/
def maxAttempts : Nat := 60

def timeoutMessage : String := "Timeout: Execução não concluída no tempo esperado"

/-- The `while (attempts < maxAttempts)` polling loop (lines 715–738),
with the count of status polls issued so far. -/
def waitLoop (retrieve : Nat → Except String RunStatus) :
    Nat → Nat → Nat → Except String RunStatus × Nat
  | 0, _, polls => (.error timeoutMessage, polls)
  | fuel + 1, attempts, polls =>
    match retrieve attempts with
    | .error e => (.error e, polls + 1)
    | .ok st =>
      if st = .completed then (.ok st, polls + 1)
      else if isFailStatus st then
        (.error ("Execução falhou com status: " ++ st.asString), polls + 1)
      else waitLoop retrieve fuel (attempts + 1) (polls + 1)

/-- `waitForRunCompletion(threadId, runId)` (lines 704–745), paired with the
number of polls it issued. -/
def waitForRunCompletion (env : RemoteEnv) (threadId : JSValue)
    (runId : String) : Except String RunStatus × Nat :=
  match ensureStringThreadId threadId with
  | .error e => (.error e, 0)
  | .ok clean => waitLoop (env.retrieveRun clean runId) maxAttempts 0 0

/-- A poll answer that keeps the loop running: `ok` and neither `completed`
nor a failure status. -/
def pollOkNonTerminal (r : Except String RunStatus) : Bool :=
  match r with
  | .ok st => !(st = RunStatus.completed) && !(isFailStatus st)
  | .error _ => false

/-- `getLatestMessage(threadId)` (lines 747–780). -/
def getLatestMessage (env : RemoteEnv) (threadId : JSValue) :
    Except String String :=
  match ensureStringThreadId threadId with
  | .error e => .error e
  | .ok clean =>
    match env.listMessages clean with
    | .error e => .error e
    | .ok [] => .error "Nenhuma mensagem encontrada na thread"
    | .ok (latest :: _) =>
      if !(latest.role = "assistant") then
        .error "Última mensagem não é do assistente"
      else if !(latest.contentType = "text") then
        .error "Conteúdo da mensagem não é texto"
      else .ok latest.textValue

/-! ## `processMessage` (src/index.js lines 783–838) -/

def apologyMessage : String :=
  "❌ Desculpe, ocorreu um erro ao processar sua mensagem. Tente novamente em alguns instantes."

/-- The `try` block of `processMessage`: the state is threaded so that
mutations made before an exception survive it. -/
def processMessageCore (env : RemoteEnv) (tm : TMState) (from_ : String)
    (messageText : String) : TMState × Except String String :=
  let threadId0 := getThreadId tm from_
  let fi := isFirstInteraction tm from_
  let tm1 := fi.2
  let contextualMessage :=
    if fi.1 then "Esta é a primeira interação com este usuário. " ++ messageText
    else "Continuando nossa conversa (não se apresente novamente): " ++ messageText
  let acquire : TMState × Except String String :=
    match threadId0 with
    | some tid => (tm1, .ok tid)
    | none =>
      match createNewThread env with
      | .error e => (tm1, .error e)
      | .ok tid =>
        match setThreadId tm1 from_ (.str tid) with
        | (tm2, .error e) => (tm2, .error e)
        | (tm2, .ok _) => (tm2, .ok tid)
  match acquire with
  | (tm2, .error e) => (tm2, .error e)
  | (tm2, .ok threadId) =>
    match addMessageToThread env (.str threadId) contextualMessage with
    | .error e => (tm2, .error e)
    | .ok _ =>
      match runAssistant env (.str threadId) with
      | .error e => (tm2, .error e)
      | .ok run =>
        match (waitForRunCompletion env (.str threadId) run.id).1 with
        | .error e => (tm2, .error e)
        | .ok _ =>
          match getLatestMessage env (.str threadId) with
          | .error e => (tm2, .error e)
          | .ok response =>
            (tm2, .ok (formatForWhatsApp (removeCitations response)))

/-- `processMessage(from, messageText, mediaType)`: the `try` block, and a
`catch` that returns the fixed apology string (and does nothing else to the
session state). -/
def processMessage (env : RemoteEnv) (tm : TMState) (from_ : String)
    (messageText : String) : TMState × String :=
  match processMessageCore env tm from_ messageText with
  | (tm', .ok reply) => (tm', reply)
  | (tm', .error _) => (tm', apologyMessage)

/-! ## The `MessageQueue` (src/index.js lines 24–165)

Per-user state: the buffer (`this.queues.get(from)`), the
scheduled/processing flag (`this.processing.has(from)`), whether the
debounce timer is pending, and the orchestration calls dispatched so far.
A drain (`processQueue`) snapshots the buffer synchronously, dispatches the
merged text call and then each media call, and only then clears the buffer
and the flag; messages arriving while the drain awaits are folded in through
`addMessage` exactly as the code does. -/

inductive MType where
  | text
  | image
  | audio
  deriving DecidableEq, Repr

structure QMsg where
  mtype : MType
  content : String
  deriving DecidableEq, Repr

inductive OrchCall where
  | text (content : String)
  | media (mtype : MType) (content : String)
  deriving DecidableEq, Repr

structure QState where
  buffer : List QMsg
  processing : Bool
  timerPending : Bool
  sent : List OrchCall
  deriving DecidableEq, Repr

/-- `addMessage(from, messageData)` (lines 31–53): always append; start the
debounce (flag + timer) only when not already processing. -/
def qAddMessage (s : QState) (m : QMsg) : QState :=
  let s' := { s with buffer := s.buffer ++ [m] }
  if s'.processing then s'
  else { s' with processing := true, timerPending := true }

/-- The orchestration calls one drain issues from a buffer snapshot
(lines 82–104): text payloads merged into one space-joined call first, then
each media payload in arrival order. -/
def drainCalls (queue : List QMsg) : List OrchCall :=
  let textMessages := queue.filter (fun m => m.mtype = MType.text)
  let mediaMessages := queue.filter (fun m => !(m.mtype = MType.text))
  (if textMessages.length > 0 then
    [OrchCall.text (String.intercalate " " (textMessages.map QMsg.content))]
  else [])
  ++ mediaMessages.map (fun m => OrchCall.media m.mtype m.content)

/-- `processQueue(from)` (lines 68–125): on an empty buffer just drop the
flag; otherwise dispatch the snapshot's calls, fold in the messages that
arrive during the drain (`late`), then set the buffer to `[]` and delete the
processing flag. -/
def processQueue (s : QState) (late : List QMsg) : QState :=
  if s.buffer.isEmpty then { s with processing := false, timerPending := false }
  else
    let s1 := { s with timerPending := false,
                       sent := s.sent ++ drainCalls s.buffer }
    let s2 := late.foldl qAddMessage s1
    { s2 with buffer := [], processing := false }

inductive QEvent where
  | enqueue (m : QMsg)
  | drain (late : List QMsg)

/-- One step of the per-user queue: an `addMessage` call, or the debounce
timer firing (only possible while a timer is pending) with the messages that
arrive mid-drain. -/
def qStep (s : QState) : QEvent → QState
  | .enqueue m => qAddMessage s m
  | .drain late => if s.timerPending then processQueue s late else s

/-! ## Helper lemmas for the session store -/

theorem assocGet_set (m : List (String × String)) (k v : String) :
    assocGet (assocSet m k v) k = some v := by
  induction m with
  | nil => simp [assocSet, assocGet]
  | cons e rest ih =>
    obtain ⟨k', v'⟩ := e
    by_cases h : k' = k
    · subst h
      simp [assocSet, assocGet]
    · simp [assocSet, assocGet, h, ih]

theorem isValidStr_eq_claimAccept (c : String) : isValidStr c = claimAccept c := by
  by_cases h : c = ""
  · subst h
    decide
  · simp [isValidStr, claimAccept, h]

theorem forceString_str (s : String) : forceString (.str s) = s := rfl

theorem ensureStringThreadId_of_valid (threadId : JSValue)
    (h : isValidThreadId threadId = true) :
    ensureStringThreadId threadId = .ok (forceString threadId) := by
  have hsame : isValidThreadId (.str (forceString threadId))
      = isValidThreadId threadId := rfl
  simp only [ensureStringThreadId, hsame, h, if_true]

theorem ensureStringThreadId_of_invalid (threadId : JSValue)
    (h : isValidThreadId threadId = false) :
    ensureStringThreadId threadId
      = .error ("Invalid thread ID: " ++ forceString threadId) := by
  have hsame : isValidThreadId (.str (forceString threadId))
      = isValidThreadId threadId := rfl
  simp only [ensureStringThreadId, hsame, h, Bool.false_eq_true, if_false]

/-! ## C10 -/

/-- C10: the session-id format validator accepts a value exactly when the
claimed coercion of it (object-with-`id` ⇒ `String` of the field,
`null`/`undefined` ⇒ `""`, otherwise the generic conversion) starts with
`"thread_"` and is strictly longer than 10 characters; in particular the
10-character `"thread_123"` is rejected. -/
theorem isValidThreadId_iff_claim :
    (∀ v : JSValue, isValidThreadId v = claimAccept (claimCoerce v)) ∧
    isValidThreadId (.str "thread_123") = false := by
  constructor
  · intro v
    cases v with
    | str s =>
      exact isValidStr_eq_claimAccept s
    | num n =>
      by_cases h : n = 0
      · subst h
        decide
      · have ht : truthy (.num n) = true := by simp [truthy, h]
        show isValidStr (if truthy (.num n) then jsToString (.num n) else "") = _
        rw [ht, if_pos rfl]
        exact isValidStr_eq_claimAccept _
    | jsBool b => cases b <;> decide
    | jsNull => decide
    | undef => decide
    | objNoId => decide
    | objWithId idv =>
      by_cases h : truthy idv = true
      · show isValidStr (if truthy idv then jsToString idv
            else jsToString (.objWithId idv)) = claimAccept (jsToString idv)
        rw [h, if_pos rfl]
        exact isValidStr_eq_claimAccept _
      · have hlhs : isValidThreadId (.objWithId idv) = false := by
          show isValidStr (if truthy idv then jsToString idv
              else jsToString (.objWithId idv)) = false
          rw [if_neg (by simp [h])]
          show isValidStr "[object Object]" = false
          decide
        rw [hlhs]
        cases idv with
        | str s =>
          have hs : s = "" := by simpa [truthy] using h
          subst hs
          decide
        | num n =>
          have hn : n = 0 := by simpa [truthy] using h
          subst hn
          decide
        | jsBool b =>
          have hb : b = false := by simpa [truthy] using h
          subst hb
          decide
        | jsNull => decide
        | undef => decide
        | objNoId => exact absurd rfl h
        | objWithId idv2 => exact absurd rfl h
  · decide

/-! ## C3 -/

/-- C3: for every user and every session id that passes the format
validator, `setThreadId` succeeds returning the id and a subsequent
`getThreadId` returns exactly that id. -/
theorem setThreadId_getThreadId_roundtrip (tm : TMState) (u id : String)
    (h : isValidThreadId (.str id) = true) :
    ∃ tm', setThreadId tm u (.str id) = (tm', .ok id)
      ∧ getThreadId tm' u = some id := by
  have hens : ensureStringThreadId (.str id) = .ok id :=
    ensureStringThreadId_of_valid _ h
  refine ⟨⟨assocSet tm.threads u id, tm.firstInteractions,
      saveThreads (assocSet tm.threads u id)⟩, ?_, ?_⟩
  · simp only [setThreadId, hens]
  · simp only [getThreadId, assocGet_set, h, if_true]

/-- Witness for C3 at a concrete store, user and id. -/
theorem setThreadId_getThreadId_roundtrip_witness :
    isValidThreadId (.str "thread_abcd1234") = true ∧
    getThreadId (setThreadId ⟨[], [], []⟩ "5549@s.whatsapp.net"
        (.str "thread_abcd1234")).1 "5549@s.whatsapp.net"
      = some "thread_abcd1234" :=
  ⟨by decide, by
    obtain ⟨tm', h1, h2⟩ := setThreadId_getThreadId_roundtrip ⟨[], [], []⟩
      "5549@s.whatsapp.net" "thread_abcd1234" (by decide)
    rw [h1]
    exact h2⟩

/-! ## C4 -/

/-- C4: for every user and every malformed session id (any value whose
coercion fails the validator), `setThreadId` fails with the
`Invalid thread ID` error and the store (registry and persisted file) is
completely unchanged. -/
theorem setThreadId_invalid_unchanged (tm : TMState) (u : String) (id : JSValue)
    (h : isValidThreadId id = false) :
    setThreadId tm u id
      = (tm, .error ("Invalid thread ID: " ++ forceString id)) := by
  have hens := ensureStringThreadId_of_invalid id h
  simp only [setThreadId, hens]

/-- Witness for C4 at the too-short id `"thread_123"`. -/
theorem setThreadId_invalid_unchanged_witness :
    isValidThreadId (.str "thread_123") = false ∧
    setThreadId ⟨[("u", "thread_abc12345")], [], [("u", JSValue.str "thread_abc12345")]⟩
        "u" (.str "thread_123")
      = (⟨[("u", "thread_abc12345")], [], [("u", JSValue.str "thread_abc12345")]⟩,
         .error "Invalid thread ID: thread_123") :=
  ⟨by decide,
   setThreadId_invalid_unchanged _ "u" (.str "thread_123") (by decide)⟩

/-! ## C2 -/

/-- The valid subset of a persisted registry, as the claim describes it. -/
def validSubset (persisted : List (String × JSValue)) : List (String × String) :=
  persisted.filterMap (fun kv =>
    let c := forceString kv.2
    if isValidThreadId (.str c) then some (kv.1, c) else none)

/-- C2 counterexample: construction from a registry holding one corrupted
entry drops the entry from memory, but the persisted file is *not*
rewritten to the valid subset (it still holds the corrupted entry) —
`loadThreads` never calls `saveThreads`. -/
theorem tmInit_does_not_rewrite_file :
    (TMState.init [("u", JSValue.str "bad")]).threads = [] ∧
    ¬((TMState.init [("u", JSValue.str "bad")]).file
        = saveThreads (validSubset [("u", JSValue.str "bad")])) := by
  decide

theorem assocSet_append_of_notMem (m : List (String × String)) (k v : String)
    (h : k ∉ m.map Prod.fst) : assocSet m k v = m ++ [(k, v)] := by
  induction m with
  | nil => rfl
  | cons e rest ih =>
    obtain ⟨k', v'⟩ := e
    simp only [List.map_cons, List.mem_cons] at h
    push_neg at h
    have hne : ¬(k' = k) := fun hk => h.1 hk.symm
    simp only [assocSet, if_neg hne, List.cons_append]
    rw [ih h.2]

theorem loadThreads_go (f : List (String × String) → (String × JSValue) → List (String × String))
    (hf : f = fun cleaned kv =>
      let cleanValue := forceString kv.2
      if isValidThreadId (.str cleanValue) then assocSet cleaned kv.1 cleanValue
      else cleaned) :
    ∀ (persisted : List (String × JSValue)) (acc : List (String × String)),
      (persisted.map Prod.fst).Nodup →
      (∀ k, k ∈ persisted.map Prod.fst → k ∉ acc.map Prod.fst) →
      persisted.foldl f acc = acc ++ validSubset persisted := by
  intro persisted
  induction persisted with
  | nil => intro acc _ _; simp [validSubset]
  | cons kv rest ih =>
    intro acc hnd hdisj
    obtain ⟨k, v⟩ := kv
    simp only [List.map_cons, List.nodup_cons] at hnd
    have hknotacc : k ∉ acc.map Prod.fst := hdisj k (by simp)
    simp only [List.foldl_cons]
    by_cases hv : isValidThreadId (.str (forceString v)) = true
    · have hstep : f acc (k, v) = acc ++ [(k, forceString v)] := by
        rw [hf]
        simp only [hv, if_true]
        exact assocSet_append_of_notMem acc k (forceString v) hknotacc
      rw [hstep]
      rw [ih (acc ++ [(k, forceString v)]) hnd.2 ?_]
      · simp only [validSubset, List.filterMap_cons, hv, if_true,
          List.append_assoc, List.singleton_append]
      · intro k' hk'
        simp only [List.map_append, List.mem_append, List.map_cons,
          List.map_nil, List.mem_singleton]
        push_neg
        refine ⟨hdisj k' (by simp [hk']), ?_⟩
        intro hkk
        subst hkk
        exact hnd.1 hk'
    · have hstep : f acc (k, v) = acc := by
        rw [hf]
        simp only [hv]
        simp
      rw [hstep]
      rw [ih acc hnd.2 (fun k' hk' => hdisj k' (by simp [hk']))]
      simp only [validSubset, List.filterMap_cons]
      rw [if_neg (by simp [hv])]

theorem getThreadId_always_valid (tm : TMState) (u : String) :
    (getThreadId tm u).all (fun s => isValidThreadId (.str s)) = true := by
  unfold getThreadId
  cases assocGet tm.threads u with
  | none => rfl
  | some raw =>
    by_cases h : isValidThreadId (.str raw) = true
    · simp [h]
    · simp [h]

/-- C2 (amended): constructing the store from a persisted registry (with
pairwise-distinct keys, as a JSON object guarantees) keeps in memory exactly
the entries whose coerced value passes the validator, and `get` never
returns an invalid id afterwards; however the persisted file is left exactly
as it was — it is only rewritten by the next successful `set`/`remove`, not
at construction time. -/
theorem tmInit_cleans_memory_keeps_file (persisted : List (String × JSValue))
    (hnd : (persisted.map Prod.fst).Nodup) :
    (TMState.init persisted).threads = validSubset persisted
    ∧ (∀ u, ((getThreadId (TMState.init persisted) u).all
        (fun s => isValidThreadId (.str s))) = true)
    ∧ (TMState.init persisted).file = persisted := by
  refine ⟨?_, fun u => getThreadId_always_valid _ u, rfl⟩
  show loadThreads persisted = validSubset persisted
  unfold loadThreads
  rw [loadThreads_go _ rfl persisted [] hnd (by simp)]
  simp

/-- The mixed persisted registry used by the C2 witness. -/
def persistedMix : List (String × JSValue) :=
  [("a", JSValue.str "thread_abc12345"), ("b", JSValue.str "bad"),
   ("c", JSValue.num 7)]

/-- Witness for C2 (amended) on a registry mixing valid and invalid
entries. -/
theorem tmInit_cleans_memory_keeps_file_witness :
    ((persistedMix.map Prod.fst).Nodup) ∧
    (TMState.init persistedMix).threads = validSubset persistedMix ∧
    ((getThreadId (TMState.init persistedMix) "b").all
      (fun s => isValidThreadId (.str s))) = true ∧
    (TMState.init persistedMix).file = persistedMix :=
  ⟨by decide,
   (tmInit_cleans_memory_keeps_file persistedMix (by decide)).1,
   (tmInit_cleans_memory_keeps_file persistedMix (by decide)).2.1 "b",
   (tmInit_cleans_memory_keeps_file persistedMix (by decide)).2.2⟩

/-! ## C5 -/

theorem waitLoop_all_nonterminal (retrieve : Nat → Except String RunStatus) :
    ∀ (fuel attempts polls : Nat),
      (∀ i, attempts ≤ i → i < attempts + fuel →
        pollOkNonTerminal (retrieve i) = true) →
      waitLoop retrieve fuel attempts polls
        = (.error timeoutMessage, polls + fuel) := by
  intro fuel
  induction fuel with
  | zero => intro attempts polls _; rfl
  | succ fuel ih =>
    intro attempts polls hall
    have h0 := hall attempts (Nat.le_refl _) (by omega)
    cases hr : retrieve attempts with
    | error e => rw [hr] at h0; simp [pollOkNonTerminal] at h0
    | ok st =>
      rw [hr] at h0
      simp only [pollOkNonTerminal, Bool.and_eq_true, Bool.not_eq_true',
        decide_eq_false_iff_not] at h0
      obtain ⟨hnc, hnf⟩ := h0
      simp only [waitLoop, hr]
      rw [if_neg (by simpa using hnc), if_neg (by simp [hnf])]
      rw [ih (attempts + 1) (polls + 1)
        (fun i hi1 hi2 => hall i (by omega) (by omega))]
      have : polls + 1 + fuel = polls + (fuel + 1) := by omega
      rw [this]

/-- C5: when every one of the first `maxAttempts` status polls answers a
non-terminal status, `waitForRunCompletion` issues exactly `maxAttempts`
polls (the counter starts at 0 and the bound includes the final check) and
then fails with the timeout error, issuing no further polls. -/
theorem waitForRunCompletion_timeout (env : RemoteEnv) (threadId : JSValue)
    (runId : String) (hvalid : isValidThreadId threadId = true)
    (hpolls : ∀ i, i < maxAttempts →
      pollOkNonTerminal (env.retrieveRun (forceString threadId) runId i) = true) :
    waitForRunCompletion env threadId runId
      = (.error timeoutMessage, maxAttempts) := by
  have hens := ensureStringThreadId_of_valid threadId hvalid
  simp only [waitForRunCompletion, hens]
  rw [waitLoop_all_nonterminal (env.retrieveRun (forceString threadId) runId)
    maxAttempts 0 0 (fun i _ hi2 => hpolls i (by omega))]
  simp

/-- The always-in-progress backend used by the C5 witness. -/
def envPoll : RemoteEnv where
  createThread := .ok (.str "thread_unused123")
  addMessage := fun _ _ => .ok ()
  runCreate := fun _ => .ok ⟨"run_1", .queued⟩
  retrieveRun := fun _ _ _ => .ok .inProgress
  listMessages := fun _ => .ok []

/-- Witness for C5: sixty `in_progress` polls, then the timeout. -/
theorem waitForRunCompletion_timeout_witness :
    isValidThreadId (.str "thread_abcd1234") = true ∧
    pollOkNonTerminal (envPoll.retrieveRun
      (forceString (.str "thread_abcd1234")) "run_1" 0) = true ∧
    waitForRunCompletion envPoll (.str "thread_abcd1234") "run_1"
      = (.error timeoutMessage, maxAttempts) :=
  ⟨by decide, rfl,
   waitForRunCompletion_timeout envPoll (.str "thread_abcd1234") "run_1"
     (by decide) (fun i _ => rfl)⟩

/-! ## C6 -/

/-- C6: the citation-stripping/whitespace-collapsing pipeline
(`removeCitations`, sanitize steps 1–4) never grows the string: its output
length is at most the input length. -/
theorem removeCitations_length_le (text : String) :
    (removeCitations text).length ≤ text.length := by
  unfold removeCitations
  split
  · simp
  · show (trimChars (removeCitationsList text.toList)).length ≤ text.length
    refine le_trans (trimChars_length_le _) ?_
    exact removeCitationsList_length_le text.toList

/-! ## C8 -/

theorem foldl_qAddMessage_sent (late : List QMsg) :
    ∀ s : QState, (late.foldl qAddMessage s).sent = s.sent := by
  induction late with
  | nil => intro s; rfl
  | cons m rest ih =>
    intro s
    rw [List.foldl_cons, ih]
    simp only [qAddMessage]
    split <;> rfl

/-- C8: when the buffer at drain time holds at least one text payload, the
drain issues exactly one text orchestration call, whose content is the text
payloads' contents joined by single spaces in arrival order, and that merged
call precedes every media call of the same drain. -/
theorem drain_merges_text (s : QState) (late : List QMsg)
    (htimer : s.timerPending = true)
    (htext : s.buffer.filter (fun m => m.mtype = MType.text) ≠ []) :
    (qStep s (.drain late)).sent =
      s.sent ++ (OrchCall.text (String.intercalate " "
          ((s.buffer.filter (fun m => m.mtype = MType.text)).map QMsg.content))
        :: (s.buffer.filter (fun m => !(m.mtype = MType.text))).map
            (fun m => OrchCall.media m.mtype m.content)) := by
  have hne : s.buffer.isEmpty = false := by
    cases hb : s.buffer with
    | nil => rw [hb] at htext; simp at htext
    | cons x xs => rfl
  have hlen : (s.buffer.filter (fun m => m.mtype = MType.text)).length > 0 :=
    List.length_pos.mpr htext
  simp only [qStep, htimer, if_true]
  simp only [processQueue, hne, Bool.false_eq_true, if_false]
  rw [foldl_qAddMessage_sent]
  simp only [drainCalls, hlen, if_pos, List.singleton_append,
    List.cons_append, List.nil_append]

/-- The three-text one-image buffer used by the C8 witness. -/
def qBurst : QState :=
  ⟨[⟨MType.text, "bom"⟩, ⟨MType.text, "dia"⟩, ⟨MType.image, "foto de peça"⟩,
    ⟨MType.text, "tudo bem?"⟩], true, true, []⟩

/-- Witness for C8: three buffered texts and one image produce one merged
text call followed by the image call. -/
theorem drain_merges_text_witness :
    qBurst.timerPending = true ∧
    qBurst.buffer.filter (fun m => m.mtype = MType.text) ≠ [] ∧
    (qStep qBurst (.drain [])).sent =
      [OrchCall.text "bom dia tudo bem?", OrchCall.media MType.image "foto de peça"] :=
  ⟨rfl, by decide,
   (drain_merges_text qBurst [] rfl (by decide)).trans (by decide)⟩

/-! ## C9 -/

/-- C9 demonstration at the failing input: the user's first message starts a
debounce; a second message is enqueued while the drain runs.  The drain ends
with `queues.set(from, [])` and `processing.delete(from)`: the late message
is erased from the buffer, no timer is pending for it, and it was never
dispatched — the payload is silently discarded instead of starting a fresh
debounce cycle. -/
theorem late_message_discarded :
    (qStep (qStep ⟨[], false, false, []⟩ (.enqueue ⟨MType.text, "primeira"⟩))
        (.drain [⟨MType.text, "segunda"⟩])).sent = [OrchCall.text "primeira"] ∧
    (qStep (qStep ⟨[], false, false, []⟩ (.enqueue ⟨MType.text, "primeira"⟩))
        (.drain [⟨MType.text, "segunda"⟩])).buffer = [] ∧
    (qStep (qStep ⟨[], false, false, []⟩ (.enqueue ⟨MType.text, "primeira"⟩))
        (.drain [⟨MType.text, "segunda"⟩])).timerPending = false ∧
    (qStep (qStep ⟨[], false, false, []⟩ (.enqueue ⟨MType.text, "primeira"⟩))
        (.drain [⟨MType.text, "segunda"⟩])).processing = false := by
  decide

/-! ## C1 -/

def isErrorResult : Except String String → Bool
  | .error _ => true
  | .ok _ => false

/-- The backend whose `messages.create` fails, used by the C1 theorems. -/
def envFail : RemoteEnv where
  createThread := .ok (.str "thread_unused123")
  addMessage := fun _ _ => .error "network down"
  runCreate := fun _ => .error "network down"
  retrieveRun := fun _ _ _ => .error "network down"
  listMessages := fun _ => .error "network down"

/-- A store holding a valid session for one user. -/
def tmOne : TMState :=
  ⟨[("5549@s.whatsapp.net", "thread_abc12345")], [],
   [("5549@s.whatsapp.net", JSValue.str "thread_abc12345")]⟩

/-- C1 counterexample: the message-submission step raises, `processMessage`
returns the fixed apology — but the user's session is *not* removed:
`getThreadId` afterwards still returns the session, because the `catch`
block of `processMessage` never calls `removeThread`. -/
theorem processMessage_error_no_reset_cex :
    isErrorResult (processMessageCore envFail tmOne "5549@s.whatsapp.net" "oi").2
      = true ∧
    processMessage envFail tmOne "5549@s.whatsapp.net" "oi"
      = (tmOne, apologyMessage) ∧
    getThreadId (processMessage envFail tmOne "5549@s.whatsapp.net" "oi").1
      "5549@s.whatsapp.net" = some "thread_abc12345" :=
  ⟨rfl, rfl, rfl⟩

/-- C1 (amended): when any step of the turn raises, `processMessage` returns
the fixed apology string but leaves the session store untouched — for a user
who already had a session, the state (registry and file included) is exactly
what it was, so `get` still returns the old session rather than absent. -/
theorem processMessage_failure_keeps_session (env : RemoteEnv) (tm : TMState)
    (u text : String) (hses : (getThreadId tm u).isSome = true)
    (hfail : isErrorResult (processMessageCore env tm u text).2 = true) :
    processMessage env tm u text = (tm, apologyMessage) := by
  obtain ⟨tid, htid⟩ := Option.isSome_iff_exists.mp hses
  have hfi : isFirstInteraction tm u = (false, tm) := by
    simp [isFirstInteraction, htid]
  have hcore1 : (processMessageCore env tm u text).1 = tm := by
    simp only [processMessageCore, htid, hfi]
    rw [if_neg Bool.false_ne_true]
    cases addMessageToThread env (.str tid)
        ("Continuando nossa conversa (não se apresente novamente): " ++ text) with
    | error e => rfl
    | ok u1 =>
      dsimp only
      cases runAssistant env (.str tid) with
      | error e => rfl
      | ok run =>
        dsimp only
        cases (waitForRunCompletion env (.str tid) run.id).1 with
        | error e => rfl
        | ok st =>
          dsimp only
          cases getLatestMessage env (.str tid) with
          | error e => rfl
          | ok response => rfl
  cases hc : (processMessageCore env tm u text).2 with
  | ok r => rw [hc] at hfail; simp [isErrorResult] at hfail
  | error e =>
    have hcore : processMessageCore env tm u text = (tm, .error e) :=
      Prod.ext hcore1 hc
    simp only [processMessage, hcore]

/-- Witness for C1 (amended) at the concrete failing backend. -/
theorem processMessage_failure_keeps_session_witness :
    (getThreadId tmOne "5549@s.whatsapp.net").isSome = true ∧
    isErrorResult (processMessageCore envFail tmOne "5549@s.whatsapp.net" "oi").2
      = true ∧
    processMessage envFail tmOne "5549@s.whatsapp.net" "oi"
      = (tmOne, apologyMessage) :=
  ⟨by decide, by decide,
   processMessage_failure_keeps_session envFail tmOne "5549@s.whatsapp.net" "oi"
     (by decide) (by decide)⟩

/-! ## C7 -/

/-- C7 counterexample: the formatting pass changes non-whitespace content on
a line-leading `"- "` list marker (`'-'` becomes `'•'`), so it does not
merely insert/remove whitespace. -/
theorem formatForWhatsApp_alters_bullet :
    ¬((formatForWhatsApp "- a").toList.filter nonWsChar
      = ("- a" : String).toList.filter nonWsChar) := by
  decide

theorem replaceScan_filter_eq (m : Matcher) (hm : MatcherKeepsContent m)
    (l : List Char) :
    (replaceScan m l).filter nonWsChar = l.filter nonWsChar :=
  replaceScanF_filter_eq m hm l.length true l

theorem stringMk_toList (X : List Char) : (String.mk X).toList = X := rfl

/-- One whitespace-only pass keeps both invariants used for C7. -/
theorem chain_step (m : Matcher) (hk : MatcherKeepsContent m)
    (hn : MatcherAddsOnlyNl m) {l base : List Char}
    (h : l.filter nonWsChar = base ∧ '-' ∉ l) :
    (replaceScan m l).filter nonWsChar = base ∧ '-' ∉ replaceScan m l :=
  ⟨(replaceScan_filter_eq m hk l).trans h.1, replaceScan_no_dash m hn l h.2⟩

theorem formatForWhatsAppList_filter_eq (l : List Char) (hdash : '-' ∉ l) :
    (formatForWhatsAppList l).filter nonWsChar = l.filter nonWsChar := by
  unfold formatForWhatsAppList
  have h0 : l.filter nonWsChar = l.filter nonWsChar ∧ '-' ∉ l := ⟨rfl, hdash⟩
  have h1 := chain_step _ (breakMatcher_keeps (fun c => c = '.') capTok)
    (breakMatcher_nl _ _) h0
  have h2 := chain_step _ (breakMatcher_keeps (fun c => c = ':') capTok)
    (breakMatcher_nl _ _) h1
  have e3 := replaceScanF_id_of_head bulletMatcher '-' bulletMatcher_head
    (replaceScan (breakMatcher (fun c => c = ':') capTok)
      (replaceScan (breakMatcher (fun c => c = '.') capTok) l)).length true _ h2.2
  have h3 : (replaceScan bulletMatcher
      (replaceScan (breakMatcher (fun c => c = ':') capTok)
        (replaceScan (breakMatcher (fun c => c = '.') capTok) l))).filter nonWsChar
        = l.filter nonWsChar ∧
      '-' ∉ replaceScan bulletMatcher
        (replaceScan (breakMatcher (fun c => c = ':') capTok)
          (replaceScan (breakMatcher (fun c => c = '.') capTok) l)) := by
    show (replaceScanF bulletMatcher _ true _).filter nonWsChar = _ ∧
      '-' ∉ replaceScanF bulletMatcher _ true _
    rw [e3]
    exact h2
  have h4 := chain_step _ (breakMatcher_keeps isEndPunct urlTok)
    (breakMatcher_nl _ _) h3
  have h5 := chain_step _ (breakMatcher_keeps isEndPunct emailTok)
    (breakMatcher_nl _ _) h4
  have h6 := chain_step _ (breakMatcher_keeps isEndPunct phoneTok)
    (breakMatcher_nl _ _) h5
  have h7 := chain_step _ (breakMatcher_keeps isEndPunct questionTok)
    (breakMatcher_nl _ _) h6
  have h8 := chain_step _ (breakMatcher_keeps isEndPunct closingTok)
    (breakMatcher_nl _ _) h7
  have h9 := chain_step _ manyNlMatcher_keeps manyNlMatcher_nl h8
  exact h9.1

/-- C7 (amended): on inputs containing no `'-'` character (so the bullet
rewrite `^- → • ` never applies), `formatForWhatsApp` only inserts or
removes whitespace: the non-whitespace character sequence of its output
equals that of its input. -/
theorem formatForWhatsApp_keeps_content (text : String)
    (hdash : '-' ∉ text.toList) :
    (formatForWhatsApp text).toList.filter nonWsChar
      = text.toList.filter nonWsChar := by
  unfold formatForWhatsApp
  split
  next h => subst h; rfl
  next h =>
    rw [stringMk_toList, trimChars_filter_eq]
    exact formatForWhatsAppList_filter_eq text.toList hdash

/-- Witness for C7 (amended). -/
theorem formatForWhatsApp_keeps_content_witness :
    '-' ∉ ("Oi. Tudo bem" : String).toList ∧
    (formatForWhatsApp "Oi. Tudo bem").toList.filter nonWsChar
      = ("Oi. Tudo bem" : String).toList.filter nonWsChar :=
  ⟨by decide, formatForWhatsApp_keeps_content "Oi. Tudo bem" (by decide)⟩

end Idugel
